import Mathlib

/-!
# Flex Living reviews pipeline — shallow embedding

This file embeds the normalization / filter / sort / aggregation pipeline of
the reviews dashboard (`src/lib/reviews/normalize.ts`, `src/lib/reviews/store.ts`,
`src/lib/reviews/types.ts`, and the route handlers under
`src/app/api/reviews/hostaway/`) into Lean and proves the frozen claims about it.

Modelling conventions:
* JS strings are modelled as `List Char` (`Str`).  `String.prototype.toLowerCase`
  is modelled per-character by `Char.toLower`, and `localeCompare` is modelled as
  code-point lexicographic comparison (`cmpStr`).
* JS numbers are modelled as exact rationals (`ℚ`); `Number((x).toFixed(2))` is
  modelled by `toFixed2` (round to the nearest multiple of 1/100, ties toward
  the larger value, per the ECMAScript `toFixed` specification).  Rationals have
  no `NaN`, so `Number.isNaN` guards in the source are vacuous in the model.
* Timestamps are abstracted by a `DateOracle` providing the behaviour of
  `new Date(s).getTime()` (`parse`, `none` for invalid dates),
  `Date.prototype.toISOString` of an epoch-milliseconds value (`toIso`), and the
  `YYYY-MM` UTC bucket key used by the trend builder (`monthKey`).
* JS `Map`s / `Set`s preserve insertion order; they are modelled as association
  lists with in-place update and end-of-list insertion.
* `Array.prototype.sort` (stable since ES2019) with a consistent comparator is
  modelled by a stable insertion sort `stableSortBy lt` where `lt a b` means
  "the comparator returns a negative number on (a, b)"; a comparator returning
  `NaN` is treated as 0 by the ECMAScript sort, i.e. as a tie.
* The global `approvalsStore` read during normalization is passed explicitly as
  an association list `Approvals`.
-/

abbrev Str := List Char

/-! ## Generic string helpers -/

/-- Lowercase a string character-wise (model of `String.prototype.toLowerCase`). -/
def lowerStr (s : Str) : Str := s.map Char.toLower

/-- Model of `String.prototype.includes`: `pat` occurs contiguously in `hay`. -/
def containsSub (hay pat : Str) : Bool :=
  match hay with
  | [] => pat.isEmpty
  | _ :: t => pat.isPrefixOf hay || containsSub t pat

/-- Model of `localeCompare` as code-point lexicographic comparison, with
values in \x7b-1, 0, 1\x7d. -/
def cmpStr : Str → Str → Int
  | [], [] => 0
  | [], _ :: _ => -1
  | _ :: _, [] => 1
  | a :: as, b :: bs => if a < b then -1 else if b < a then 1 else cmpStr as bs

/-- Model of the JS `>` operator on strings (lexicographic). -/
def strGt (a b : Str) : Bool := 0 < cmpStr a b

/-- Model of `Array.prototype.join(" ")`. -/
def joinSpace : List Str → Str
  | [] => []
  | [s] => s
  | s :: t => s ++ ' ' :: joinSpace t

/-- Accumulator-based worker for `splitWs`; `cur` holds the current word in
reverse. -/
def splitWsGo (cur : Str) : Str → List Str
  | [] => if cur.isEmpty then [] else [cur.reverse]
  | c :: t =>
    if c.isWhitespace then
      if cur.isEmpty then splitWsGo [] t else cur.reverse :: splitWsGo [] t
    else splitWsGo (c :: cur) t

/-- Split on whitespace, dropping empty fragments. -/
def splitWs (s : Str) : List Str := splitWsGo [] s

/-- Split a string at `':'` (model of `String.prototype.split(":")`). -/
def splitColon (s : Str) : List Str :=
  match s with
  | [] => [[]]
  | c :: t =>
    let rest := splitColon t
    if c = ':' then [] :: rest
    else
      match rest with
      | [] => [[c]]
      | w :: ws => (c :: w) :: ws

/-- Stable insertion of `a` into `l`: `a` is placed before the first element
`b` with `lt a b`, hence after every element that ties with `a`. -/
def insertBy (lt : α → α → Bool) (a : α) : List α → List α
  | [] => [a]
  | b :: t => if lt a b then a :: b :: t else b :: insertBy lt a t

/-- Stable sort: elements are inserted left to right, so elements that tie
under the comparator keep their input order.  This models the ECMAScript
stable `Array.prototype.sort` with comparator `cmp` when
`lt a b ↔ cmp a b < 0` and the comparator is consistent. -/
def stableSortBy (lt : α → α → Bool) (l : List α) : List α :=
  l.foldl (fun acc a => insertBy lt a acc) []

/-! ## Rounding: `Number((x).toFixed(2))` -/

/-- Round to two decimal places, ties toward the larger value
(ECMAScript `Number.prototype.toFixed`). -/
def toFixed2 (x : ℚ) : ℚ := (⌊x * 100 + 1 / 2⌋ : ℚ) / 100

/-! ## Closed enumerations (`src/lib/reviews/types.ts`) -/

inductive ReviewChannel
  | airbnb | booking | google | expedia | flex | vrbo | direct | other
deriving DecidableEq

inductive ReviewStatus
  | published | pending | hidden | archived
deriving DecidableEq

inductive ReviewType
  | guestToHost | hostToGuest | guestToGuest | hostToHost | unknown
deriving DecidableEq

/-- The wire code of a channel (used by `localeCompare`-based sorting and by
the meta filter vocabulary). -/
def channelCode : ReviewChannel → Str
  | .airbnb => "airbnb".toList
  | .booking => "booking".toList
  | .google => "google".toList
  | .expedia => "expedia".toList
  | .flex => "flex".toList
  | .vrbo => "vrbo".toList
  | .direct => "direct".toList
  | .other => "other".toList

/-- `CHANNEL_LABELS` from the source. -/
def channelLabel : ReviewChannel → Str
  | .airbnb => "Airbnb".toList
  | .booking => "Booking.com".toList
  | .google => "Google".toList
  | .expedia => "Expedia".toList
  | .vrbo => "Vrbo".toList
  | .direct => "Direct".toList
  | .flex => "Flex Living".toList
  | .other => "Other".toList

def typeCode : ReviewType → Str
  | .guestToHost => "guest-to-host".toList
  | .hostToGuest => "host-to-guest".toList
  | .guestToGuest => "guest-to-guest".toList
  | .hostToHost => "host-to-host".toList
  | .unknown => "unknown".toList

def statusCode : ReviewStatus → Str
  | .published => "published".toList
  | .pending => "pending".toList
  | .hidden => "hidden".toList
  | .archived => "archived".toList

/-! ## Data model (`src/lib/reviews/types.ts`) -/

structure HostawayCategoryRating where
  category : Str
  rating : Option ℚ
deriving DecidableEq

structure HostawayReview where
  id : Int
  listingId : Int
  listingName : Str
  type : Option Str
  channel : Option Str
  status : Option Str
  rating : Option ℚ
  ratingScale : Option ℚ
  publicReview : Option Str
  privateReview : Option Str
  reviewCategory : Option (List HostawayCategoryRating)
  submittedAt : Option Str
  guestName : Option Str
  managerResponse : Option Str
  tags : Option (List Str)
  publishOnFlex : Option Bool
deriving DecidableEq

structure NormalizedCategoryRating where
  key : Str
  label : Str
  rating : Option ℚ
  scale : ℚ
  normalizedRating : Option ℚ
deriving DecidableEq

structure NormalizedReview where
  id : Str
  sourceId : Int
  listingId : Int
  listingName : Str
  listingSlug : Str
  submittedAt : Str
  channel : ReviewChannel
  type : ReviewType
  status : ReviewStatus
  guestName : Option Str
  publicReview : Option Str
  privateReview : Option Str
  managerResponse : Option Str
  rating : Option ℚ
  ratingScale : ℚ
  normalizedRating : Option ℚ
  categoryRatings : List NormalizedCategoryRating
  tags : List Str
  isApproved : Bool
deriving DecidableEq

/-! ## Date oracle

`new Date(...)` parsing/formatting is host behaviour; it is abstracted by an
oracle so everything stays executable while theorems quantify over it. -/

structure DateOracle where
  /-- `new Date(s).getTime()` in epoch milliseconds; `none` when the result
  is `NaN` (invalid date). -/
  parse : Str → Option Int
  /-- `new Date(t).toISOString()` for an epoch-milliseconds value. -/
  toIso : Int → Str
  /-- The `YYYY-MM` UTC bucket key of an ISO timestamp string, as computed by
  `buildTrend` from `getUTCFullYear`/`getUTCMonth`. -/
  monthKey : Str → Str

/-- Model of `parseDate` from the source: `null`/empty input or an
unparseable string yields `null`. -/
def parseDateM (od : DateOracle) (value : Option Str) : Option Int :=
  match value with
  | none => none
  | some s => if s.isEmpty then none else od.parse s

/-! ## Sanitizer (`sanitizeText`, `sanitizeAndFallback`) -/

/-- `/[\u0000-\u001F\u007F]/` — control characters. -/
def isControlChar (c : Char) : Bool := c.val ≤ 0x1F || c.val == 0x7F

/-- `/[<>"'`]/` — markup-significant characters stripped by the sanitizer. -/
def isHtmlDangerous (c : Char) : Bool :=
  c == '<' || c == '>' || c == '"' || c == '\'' || c == '`'

/-- Model of `String.prototype.trim` (drop leading/trailing whitespace). -/
def trimStr (s : Str) : Str :=
  ((s.dropWhile Char.isWhitespace).reverse.dropWhile Char.isWhitespace).reverse

/-- `sanitizeText` from the source: `null`/empty → `null`; otherwise trim,
strip control characters (empty result → `null`), then strip the
markup-significant characters. -/
def sanitizeText (value : Option Str) : Option Str :=
  match value with
  | none => none
  | some s =>
    if s.isEmpty then none
    else
      let trimmed := trimStr s
      if trimmed.isEmpty then none
      else
        let withoutControl := trimmed.filter (fun c => !isControlChar c)
        if withoutControl.isEmpty then none
        else some (withoutControl.filter (fun c => !isHtmlDangerous c))

def sanitizeAndFallback (value : Option Str) (fallback : Str) : Str :=
  (sanitizeText value).getD fallback

/-! ## Slug derivation (`toSlug`) -/

/-- Characters that survive slugification: `[a-z0-9]`. -/
def isSlugChar (c : Char) : Bool :=
  ('a' ≤ c && c ≤ 'z') || ('0' ≤ c && c ≤ '9')

/-- Model of `.replace(/[^a-z0-9]+/g, "-")`: each maximal run of
non-`[a-z0-9]` characters collapses to a single hyphen.  A run extends to the
right exactly when the collapsed tail already starts with a hyphen. -/
def collapseNonAlnum : Str → Str
  | [] => []
  | c :: rest =>
    if isSlugChar c then c :: collapseNonAlnum rest
    else if (collapseNonAlnum rest).head? = some '-' then collapseNonAlnum rest
    else '-' :: collapseNonAlnum rest

/-- Drop a single leading hyphen. -/
def dropLeadHyphen : Str → Str
  | [] => []
  | c :: t => if c = '-' then t else c :: t

/-- Drop a single trailing hyphen. -/
def dropTrailHyphen : Str → Str
  | [] => []
  | [c] => if c = '-' then [] else [c]
  | c :: rest => c :: dropTrailHyphen rest

/-- Model of `.replace(/(^-|-$)+/g, "")`.  Scanning the regex left to right,
the match at position 0 removes one leading hyphen (two when the string is
exactly `"--"`, which the composition below also removes), and a final hyphen
matches `-$`; the net effect is to drop one leading and one trailing hyphen. -/
def stripEdgeHyphens (s : Str) : Str := dropTrailHyphen (dropLeadHyphen s)

/-- `toSlug` from the source. -/
def toSlug (value : Str) : Str :=
  stripEdgeHyphens (collapseNonAlnum
    (lowerStr (sanitizeAndFallback (some value) ("listing".toList))))

/-! ## Enum coercion (`coerceChannel`, `coerceType`, `coerceStatus`) -/

/-- `coerceChannel`: case-insensitive substring match in a fixed priority
order, `other` as fallback (also for `null`/empty input). -/
def coerceChannel (value : Option Str) : ReviewChannel :=
  match value with
  | none => .other
  | some v =>
    if v.isEmpty then .other
    else
      let n := lowerStr v
      if containsSub n ("airbnb".toList) then .airbnb
      else if containsSub n ("booking".toList) then .booking
      else if containsSub n ("google".toList) then .google
      else if containsSub n ("expedia".toList) then .expedia
      else if containsSub n ("vrbo".toList) then .vrbo
      else if containsSub n ("flex".toList) then .flex
      else if containsSub n ("direct".toList) then .direct
      else .other

/-- `coerceType`: exact case-insensitive match against the closed vocabulary
(`REVIEW_TYPE_FALLBACKS`), `unknown` as fallback. -/
def coerceType (value : Option Str) : ReviewType :=
  match value with
  | none => .unknown
  | some v =>
    if v.isEmpty then .unknown
    else
      let n := lowerStr v
      if n = "guest-to-host".toList then .guestToHost
      else if n = "host-to-guest".toList then .hostToGuest
      else if n = "guest-to-guest".toList then .guestToGuest
      else if n = "host-to-host".toList then .hostToHost
      else .unknown

/-- `coerceStatus`: exact case-insensitive match (`REVIEW_STATUS_FALLBACKS`),
`published` as fallback. -/
def coerceStatus (value : Option Str) : ReviewStatus :=
  match value with
  | none => .published
  | some v =>
    if v.isEmpty then .published
    else
      let n := lowerStr v
      if n = "published".toList then .published
      else if n = "pending".toList then .pending
      else if n = "hidden".toList then .hidden
      else if n = "archived".toList then .archived
      else .published

/-! ## Scale detection and value normalization -/

def DEFAULT_RATING_SCALE : ℚ := 5
def NORMALIZED_TARGET_SCALE : ℚ := 5

/-- The magnitude classification used by `detectScale` when no usable scale
hint is present (source lines after the early return). -/
def detectScaleNoHint : Option ℚ → ℚ
  | none => DEFAULT_RATING_SCALE
  | some r =>
    if r ≤ 5 then 5
    else if r ≤ 10 then 10
    else if r ≤ 20 then 20
    else if r ≤ 100 then 100
    else DEFAULT_RATING_SCALE

/-- `detectScale`: a truthy positive explicit hint wins
(`if (ratingScale && ratingScale > 0) return ratingScale`; truthiness of a
number together with `> 0` is exactly `0 < s` for rationals); otherwise
classify the raw value by magnitude. -/
def detectScale (rating ratingScale : Option ℚ) : ℚ :=
  match ratingScale with
  | some s => if 0 < s then s else detectScaleNoHint rating
  | none => detectScaleNoHint rating

/-- `normalizeValueToTarget` (the `targetScale` parameter is never overridden
at any call site, so it is inlined as `NORMALIZED_TARGET_SCALE`).  Rationals
cannot be `NaN`, so `Number.isNaN(scale)` is vacuous. -/
def normalizeValueToTarget (value : Option ℚ) (scale : ℚ) : Option ℚ :=
  match value with
  | none => none
  | some v =>
    if scale ≤ 0 then none
    else some (toFixed2 (v / scale * NORMALIZED_TARGET_SCALE))

/-! ## Category normalization (`humanizeCategory`, `normalizeCategories`) -/

/-- `\w` of JS regexes: `[A-Za-z0-9_]`. -/
def isWordChar (c : Char) : Bool := c.isAlphanum || c == '_'

/-- Model of `.replace(/\b\w/g, toUpperCase)`: uppercase every word character
that starts a word (preceded by nothing or by a non-word character). -/
def capitalizeWordStarts : Option Char → Str → Str
  | _, [] => []
  | prev, c :: t =>
    let boundary := match prev with
      | none => true
      | some p => !isWordChar p
    let c' := if isWordChar c && boundary then c.toUpper else c
    c' :: capitalizeWordStarts (some c) t

/-- `humanizeCategory` from the source. -/
def humanizeCategory (key : Str) : Str :=
  capitalizeWordStarts none
    ((sanitizeAndFallback (some key) ("General".toList)).map
      (fun c => if c = '_' then ' ' else c))

/-- `normalizeCategories`: each category's scale is detected from its own
value with no hint (`detectScale(rating, undefined)`). -/
def normalizeCategories
    (categories : Option (List HostawayCategoryRating)) :
    List NormalizedCategoryRating :=
  match categories with
  | none => []
  | some cs =>
    if cs.isEmpty then []
    else
      cs.map (fun c =>
        let scale := detectScale c.rating none
        let normalized := normalizeValueToTarget c.rating scale
        let safeKey := sanitizeAndFallback (some c.category) ("other".toList)
        { key := safeKey
          label := humanizeCategory safeKey
          rating := c.rating
          scale := scale
          normalizedRating := normalized })

/-! ## Approvals store (`src/lib/reviews/store.ts`) -/

/-- The approvals store, reduced to the key → value view that
`getApproval` observes (insertion metadata does not affect the pipeline). -/
abbrev Approvals := List (Str × Bool)

/-- `ApprovalsStore.getApproval`: the stored boolean, or `null` if absent. -/
def lookupApproval (store : Approvals) (id : Str) : Option Bool :=
  match store with
  | [] => none
  | (k, v) :: t => if k = id then some v else lookupApproval t id

/-- Decimal representation of an integer (model of JS `String(id)` and of the
template literal for integral numbers). -/
def intToStr (n : Int) : Str :=
  match n with
  | .ofNat m => Nat.toDigits 10 m
  | .negSucc m => '-' :: Nat.toDigits 10 (m + 1)

/-! ## Record normalizer (`normalizeReview`) -/

def normalizeReview (od : DateOracle) (store : Approvals)
    (review : HostawayReview) : NormalizedReview :=
  let scale := detectScale review.rating review.ratingScale
  let normalizedRating := normalizeValueToTarget review.rating scale
  let normalizedCategories := normalizeCategories review.reviewCategory
  let safeListingName :=
    sanitizeAndFallback (some review.listingName) ("Flex Living Listing".toList)
  let slug := toSlug safeListingName
  -- `parseDate(submittedAt) ?? new Date(0)`, then `.toISOString()`
  let dateMs := (parseDateM od review.submittedAt).getD 0
  let approvalOverride := lookupApproval store (intToStr review.id)
  { id := "hostaway-".toList ++ intToStr review.id
    sourceId := review.id
    listingId := review.listingId
    listingName := safeListingName
    listingSlug := slug
    submittedAt := od.toIso dateMs
    channel := coerceChannel review.channel
    type := coerceType review.type
    status := coerceStatus review.status
    guestName := sanitizeText review.guestName
    publicReview := sanitizeText review.publicReview
    privateReview := sanitizeText review.privateReview
    managerResponse := sanitizeText review.managerResponse
    rating := review.rating
    ratingScale := scale
    normalizedRating := normalizedRating
    categoryRatings := normalizedCategories
    tags := (review.tags.getD []).filterMap (fun tag => sanitizeText (some tag))
    isApproved :=
      match approvalOverride with
      | some b => b
      | none =>
        match review.publishOnFlex with
        | some b => b
        | none =>
          match normalizedRating with
          | some q => decide ((44 : ℚ) / 10 ≤ q)
          | none => false }

/-! ## Averaging (`average`) -/

/-- `average`: mean of the present values, rounded to two decimals; `null`
when no value is present.  (`Number.isNaN` filtering is vacuous over ℚ.) -/
def average (values : List (Option ℚ)) : Option ℚ :=
  let filtered := values.filterMap id
  if filtered.isEmpty then none
  else some (toFixed2 (filtered.sum / filtered.length))

/-- `average` restricted to already-present values, as used on
`info.values` in `buildCategoryAverages`. -/
def averageVals (values : List ℚ) : Option ℚ :=
  average (values.map some)

/-! ## Channel breakdown (`buildChannelBreakdown`) -/

structure ListingChannelBreakdown where
  channel : ReviewChannel
  label : Str
  count : Nat
  ratio : ℚ
deriving DecidableEq

/-- Insertion-ordered counting map over channels (JS `Map` semantics). -/
def countChannels (reviews : List NormalizedReview) :
    List (ReviewChannel × Nat) :=
  reviews.foldl
    (fun acc r =>
      let rec bump : List (ReviewChannel × Nat) → List (ReviewChannel × Nat)
        | [] => [(r.channel, 1)]
        | (ch, n) :: t => if ch = r.channel then (ch, n + 1) :: t else (ch, n) :: bump t
      bump acc)
    []

def buildChannelBreakdown (reviews : List NormalizedReview) :
    List ListingChannelBreakdown :=
  if reviews.isEmpty then []
  else
    (countChannels reviews).map (fun p =>
      { channel := p.1
        label := channelLabel p.1
        count := p.2
        ratio := toFixed2 ((p.2 : ℚ) / (reviews.length : ℚ)) })

/-! ## Category averages (`buildCategoryAverages`) -/

structure ListingCategoryAverages where
  category : Str
  average : Option ℚ
  scale : ℚ
  normalizedAverage : Option ℚ
deriving DecidableEq

/-- One `tracked` record: the scale of the first occurrence and the collected
present normalized values in encounter order. -/
abbrev Tracked := List (Str × ℚ × List ℚ)

def lookupTracked (k : Str) : Tracked → Option (ℚ × List ℚ)
  | [] => none
  | (k', p) :: t => if k' = k then some p else lookupTracked k t

/-- Push a value onto the record of key `k` (in-place `values.push`). -/
def pushTracked (k : Str) (v : ℚ) : Tracked → Tracked
  | [] => []
  | (k', s, vs) :: t =>
    if k' = k then (k', s, vs ++ [v]) :: t else (k', s, vs) :: pushTracked k v t

/-- One iteration of the nested loop in `buildCategoryAverages`: register the
key on first sight (recording that occurrence's scale with an empty value
list), then push the normalized value when present. -/
def trackStep (acc : Tracked) (c : NormalizedCategoryRating) : Tracked :=
  let acc1 :=
    if (lookupTracked c.key acc).isSome then acc
    else acc ++ [(c.key, c.scale, [])]
  match c.normalizedRating with
  | none => acc1
  | some v => pushTracked c.key v acc1

def trackCategories (cats : List NormalizedCategoryRating) : Tracked :=
  cats.foldl trackStep []

def categoryEntry (p : Str × ℚ × List ℚ) : ListingCategoryAverages :=
  let normalizedAverage := averageVals p.2.2
  { category := humanizeCategory p.1
    average := normalizedAverage.map
      (fun x => toFixed2 (x / NORMALIZED_TARGET_SCALE * p.2.1))
    scale := p.2.1
    normalizedAverage := normalizedAverage }

def buildCategoryAverages (reviews : List NormalizedReview) :
    List ListingCategoryAverages :=
  (trackCategories (reviews.flatMap (fun r => r.categoryRatings))).map
    categoryEntry

/-! ## Monthly trend (`buildTrend`) -/

structure ListingTrendPoint where
  period : Str
  averageRating : Option ℚ
  normalizedAverage : Option ℚ
  reviewCount : Nat
deriving DecidableEq

/-- Insertion-ordered bucketing map (JS `Map` semantics), values kept in
encounter order. -/
def bucketByPeriod (od : DateOracle) (reviews : List NormalizedReview) :
    List (Str × List NormalizedReview) :=
  reviews.foldl
    (fun acc r =>
      let period := od.monthKey r.submittedAt
      let rec put : List (Str × List NormalizedReview) → List (Str × List NormalizedReview)
        | [] => [(period, [r])]
        | (k, rs) :: t => if k = period then (k, rs ++ [r]) :: t else (k, rs) :: put t
      put acc)
    []

def buildTrend (od : DateOracle) (reviews : List NormalizedReview) :
    List ListingTrendPoint :=
  if reviews.isEmpty then []
  else
    (stableSortBy
        (fun a b => (if strGt a.1 b.1 then (1 : Int) else -1) < 0)
        (bucketByPeriod od reviews)).map
      (fun p =>
        let normalizedAverage :=
          average (p.2.map (fun r => r.normalizedRating))
        { period := p.1
          averageRating := normalizedAverage
          normalizedAverage := normalizedAverage
          reviewCount := p.2.length })

/-! ## Listing summaries (`buildListingSummaries`) -/

structure ListingReviewSummary where
  listingId : Int
  listingName : Str
  listingSlug : Str
  totalReviews : Nat
  approvedReviews : Nat
  lastReviewDate : Option Str
  averageRating : Option ℚ
  ratingScale : ℚ
  normalizedAverageRating : Option ℚ
  channels : List ListingChannelBreakdown
  categoryAverages : List ListingCategoryAverages
  ratingTrend : List ListingTrendPoint
deriving DecidableEq

/-- Insertion-ordered grouping by listing id; the `info` member is the
first-seen review of the group and the review list contains every member in
encounter order (the source pushes the info review as well). -/
def groupByListing (reviews : List NormalizedReview) :
    List (Int × NormalizedReview × List NormalizedReview) :=
  reviews.foldl
    (fun acc r =>
      let rec put : List (Int × NormalizedReview × List NormalizedReview) →
          List (Int × NormalizedReview × List NormalizedReview)
        | [] => [(r.listingId, r, [r])]
        | (k, info, rs) :: t =>
          if k = r.listingId then (k, info, rs ++ [r]) :: t
          else (k, info, rs) :: put t
      put acc)
    []

/-- `new Date(r.submittedAt).getTime()` on a normalized review; normalized
timestamps always come from `toISOString`, the `getD 0` default is inert. -/
def timeOf (od : DateOracle) (r : NormalizedReview) : Int :=
  (od.parse r.submittedAt).getD 0

def summarizeGroup (od : DateOracle)
    (g : Int × NormalizedReview × List NormalizedReview) :
    ListingReviewSummary :=
  let info := g.2.1
  let listingReviews := g.2.2
  let normalizedAverage :=
    average (listingReviews.map (fun r => r.normalizedRating))
  -- comparator `(a, b) => time(b) - time(a)`: negative iff time(b) < time(a)
  let sortedByDate :=
    stableSortBy (fun a b => timeOf od b < timeOf od a) listingReviews
  { listingId := info.listingId
    listingName := info.listingName
    listingSlug := info.listingSlug
    totalReviews := listingReviews.length
    approvedReviews := (listingReviews.filter (fun r => r.isApproved)).length
    lastReviewDate := (sortedByDate.head?).map (fun r => r.submittedAt)
    averageRating := normalizedAverage
    ratingScale := NORMALIZED_TARGET_SCALE
    normalizedAverageRating := normalizedAverage
    channels := buildChannelBreakdown listingReviews
    categoryAverages := buildCategoryAverages listingReviews
    ratingTrend := buildTrend od listingReviews }

/-- The final `.sort` comparator of `buildListingSummaries`, as a
sign-carrying value: both averages `null` → `localeCompare` of the names;
one `null` → that summary sorts last; otherwise `b.averageRating -
a.averageRating` (note: no name tie-break in this branch). -/
def summaryCmp (a b : ListingReviewSummary) : ℚ :=
  match a.averageRating, b.averageRating with
  | none, none => ((cmpStr a.listingName b.listingName : Int) : ℚ)
  | none, some _ => 1
  | some _, none => -1
  | some x, some y => y - x

def buildListingSummaries (od : DateOracle)
    (reviews : List NormalizedReview) : List ListingReviewSummary :=
  stableSortBy (fun a b => summaryCmp a b < 0)
    ((groupByListing reviews).map (summarizeGroup od))

/-! ## Collection metrics (`computeMetrics`) -/

structure CollectionMetrics where
  totalReviews : Nat
  approvedReviews : Nat
  averageRating : Option ℚ
  ratingScale : ℚ
  normalizedAverageRating : Option ℚ
  /-- `dateRange.from` in the source. -/
  rangeFrom : Option Str
  /-- `dateRange.to` in the source. -/
  rangeTo : Option Str
deriving DecidableEq

def computeMetrics (od : DateOracle) (reviews : List NormalizedReview) :
    CollectionMetrics :=
  let normalizedAverage :=
    average (reviews.map (fun r => r.normalizedRating))
  let approved := reviews.filter (fun r => r.isApproved)
  let dates := reviews.filterMap (fun r => od.parse r.submittedAt)
  { totalReviews := reviews.length
    approvedReviews := approved.length
    averageRating := normalizedAverage
    ratingScale := NORMALIZED_TARGET_SCALE
    normalizedAverageRating := normalizedAverage
    rangeFrom := dates.min?.map od.toIso
    rangeTo := dates.max?.map od.toIso }

/-! ## Filter specification (`ReviewFilters`) -/

structure ReviewFilters where
  listingId : Option Int
  listingSlug : Option Str
  channels : Option (List ReviewChannel)
  types : Option (List ReviewType)
  statuses : Option (List ReviewStatus)
  approved : Option Bool
  minRating : Option ℚ
  maxRating : Option ℚ
  category : Option Str
  minCategoryRating : Option ℚ
  startDate : Option Str
  endDate : Option Str
  search : Option Str
  sort : Option Str
deriving DecidableEq

/-- The filter object with every predicate unset. -/
def emptyFilters : ReviewFilters :=
  { listingId := none, listingSlug := none, channels := none, types := none
    statuses := none, approved := none, minRating := none, maxRating := none
    category := none, minCategoryRating := none, startDate := none
    endDate := none, search := none, sort := none }

/-- The concatenated search haystack of `matchesFilters`
(`[listingName, guestName ?? "", publicReview ?? "", privateReview ?? "",
managerResponse ?? "", ...tags].join(" ")`). -/
def searchHaystack (r : NormalizedReview) : Str :=
  joinSpace
    ([r.listingName, r.guestName.getD [], r.publicReview.getD [],
      r.privateReview.getD [], r.managerResponse.getD []] ++ r.tags)

/-- `matchesFilters` from the source, predicate by predicate.  JS truthiness
guards (`filters.listingSlug && ...`, `filters.channels?.length && ...`,
`filters.category`, `filters.search`, `filters.startDate ? ... : null`) are
rendered as emptiness checks on the corresponding `Option`/list/string. -/
def matchesFilters (od : DateOracle) (r : NormalizedReview)
    (filters : ReviewFilters) : Bool :=
  if filters.listingId.any (fun v => r.listingId ≠ v) then false
  else if filters.listingSlug.any (fun s => !s.isEmpty && r.listingSlug ≠ s) then
    false
  else if filters.channels.any (fun cs => !cs.isEmpty && !cs.contains r.channel) then
    false
  else if filters.types.any (fun ts => !ts.isEmpty && !ts.contains r.type) then
    false
  else if filters.statuses.any (fun ss => !ss.isEmpty && !ss.contains r.status) then
    false
  else if filters.approved.any (fun b => r.isApproved ≠ b) then false
  else if filters.minRating.any (fun m =>
      match r.normalizedRating with
      | none => true
      | some x => x < m) then false
  else if filters.maxRating.any (fun m =>
      match r.normalizedRating with
      | none => true
      | some x => m < x) then false
  else if filters.category.any (fun cat =>
      !cat.isEmpty &&
        match r.categoryRatings.find? (fun c => lowerStr c.key = cat) with
        | none => true
        | some cm =>
          filters.minCategoryRating.any (fun m =>
            match cm.normalizedRating with
            | none => true
            | some v => v < m)) then false
  else
    let startDate := parseDateM od filters.startDate
    let endDate := parseDateM od filters.endDate
    if startDate.isSome || endDate.isSome then
      match parseDateM od (some r.submittedAt) with
      | none => false
      | some submitted =>
        if startDate.any (fun s => submitted < s) then false
        else if endDate.any (fun e => e < submitted) then false
        else matchesSearch r filters
    else matchesSearch r filters
where
  /-- The trailing full-text predicate of `matchesFilters`. -/
  matchesSearch (r : NormalizedReview) (filters : ReviewFilters) : Bool :=
    match filters.search with
    | none => true
    | some q =>
      if q.isEmpty then true
      else containsSub (lowerStr (searchHaystack r)) (lowerStr q)

/-! ## Sort comparator (`applySorting`) -/

/-- Sign of the `rating` comparator's base value `aValue - bValue`, where a
missing normalized rating stands for `-Infinity`; both missing gives `NaN`,
which the ECMAScript sort treats as `+0` (a tie), hence sign `0`. -/
def ratingCmpSign (a b : Option ℚ) : Int :=
  match a, b with
  | none, none => 0
  | none, some _ => -1
  | some _, none => 1
  | some x, some y => if x < y then -1 else if y < x then 1 else 0

/-- `applySorting` from the source.  Each branch sorts stably by the sign of
the source comparator; multiplying by the direction `multiplier` (and by the
extra `* -1` in the `rating` branch) flips the sign, so
`comparator < 0` is expressed on the underlying sign values. -/
def applySorting (od : DateOracle) (reviews : List NormalizedReview)
    (sort : Option Str) : List NormalizedReview :=
  match sort with
  | none =>
    stableSortBy (fun a b => timeOf od b < timeOf od a) reviews
  | some s =>
    if s.isEmpty then
      -- `if (!sort)`: the empty string is falsy
      stableSortBy (fun a b => timeOf od b < timeOf od a) reviews
    else
      let parts := splitColon s
      let field := parts.headD []
      let direction := parts[1]?
      let multiplier : Int := if direction = some ("asc".toList) then 1 else -1
      if field = "rating".toList then
        stableSortBy
          (fun a b =>
            ratingCmpSign a.normalizedRating b.normalizedRating *
              multiplier * (-1) < 0)
          reviews
      else if field = "listing".toList then
        stableSortBy
          (fun a b => cmpStr a.listingName b.listingName * multiplier < 0)
          reviews
      else if field = "channel".toList then
        stableSortBy
          (fun a b =>
            cmpStr (channelCode a.channel) (channelCode b.channel) *
              multiplier < 0)
          reviews
      else
        stableSortBy
          (fun a b => (timeOf od a - timeOf od b) * multiplier < 0)
          reviews

/-! ## Meta filter vocabulary (`collectMetaFilters`) -/

structure MetaDateRange where
  /-- `dateRange.min` in the source. -/
  rangeMin : Option Str
  /-- `dateRange.max` in the source. -/
  rangeMax : Option Str
deriving DecidableEq

structure MetaFilters where
  channels : List ReviewChannel
  reviewTypes : List ReviewType
  categories : List Str
  statuses : List ReviewStatus
  dateRange : MetaDateRange
deriving DecidableEq

/-- First-seen-order deduplication (JS `Set` insertion semantics). -/
def dedupe [DecidableEq α] (l : List α) : List α :=
  l.foldl (fun acc a => if acc.contains a then acc else acc ++ [a]) []

/-- `Array.from(set).sort()`: the default comparator sorts by string
representation. -/
def sortByCode [DecidableEq α] (code : α → Str) (l : List α) : List α :=
  stableSortBy (fun a b => cmpStr (code a) (code b) < 0) (dedupe l)

def collectMetaFilters (od : DateOracle)
    (reviews : List NormalizedReview) : MetaFilters :=
  let dates := reviews.filterMap (fun r => parseDateM od (some r.submittedAt))
  { channels := sortByCode channelCode (reviews.map (fun r => r.channel))
    reviewTypes := sortByCode typeCode (reviews.map (fun r => r.type))
    categories :=
      sortByCode id
        ((reviews.flatMap (fun r => r.categoryRatings)).map (fun c => c.key))
    statuses := sortByCode statusCode (reviews.map (fun r => r.status))
    dateRange :=
      { rangeMin := dates.min?.map od.toIso
        rangeMax := dates.max?.map od.toIso } }

/-! ## Response assembler (`buildHostawayResponse`) -/

structure ReviewsMeta where
  generatedAt : Str
  filters : MetaFilters
deriving DecidableEq

structure ReviewsMetrics where
  overall : CollectionMetrics
  filtered : CollectionMetrics
deriving DecidableEq

structure ReviewsResponse where
  meta : ReviewsMeta
  metrics : ReviewsMetrics
  listings : List ListingReviewSummary
  reviews : List NormalizedReview
deriving DecidableEq

/-- `buildHostawayResponse`: the raw corpus (the `getHostawayReviews()` JSON
load), the approvals-store snapshot, the already-gathered filter object (URL
parsing is the excluded routing layer) and the `generatedAt` clock value are
explicit inputs. -/
def buildHostawayResponse (od : DateOracle) (store : Approvals) (now : Str)
    (corpus : List HostawayReview) (filters : ReviewFilters) :
    ReviewsResponse :=
  let allNormalized := corpus.map (normalizeReview od store)
  let filteredReviews :=
    allNormalized.filter (fun r => matchesFilters od r filters)
  let sortedReviews := applySorting od filteredReviews filters.sort
  { meta :=
      { generatedAt := now
        filters := collectMetaFilters od allNormalized }
    metrics :=
      { overall := computeMetrics od allNormalized
        filtered := computeMetrics od sortedReviews }
    listings := buildListingSummaries od sortedReviews
    reviews := sortedReviews }

/-! ## Spec-side definitions (for refinement comparison with the source) -/

/-- The search predicate as the spec words it: every whitespace-split term of
the query must, case-insensitively, occur somewhere in the haystack
(implicit AND across terms).  Stated for comparison with the `search` branch
of `matchesFilters`. -/
def specSearchMatches (r : NormalizedReview) (q : Str) : Bool :=
  (splitWs q).all
    (fun term => containsSub (lowerStr (searchHaystack r)) (lowerStr term))

/-- The magnitude classification chain as the spec words it
(≤5 → 5, ≤10 → 10, ≤20 → 20, ≤100 → 100, else 5), for comparison with
`detectScale`. -/
def specScaleChain (r : ℚ) : ℚ :=
  if r ≤ 5 then 5
  else if r ≤ 10 then 10
  else if r ≤ 20 then 20
  else if r ≤ 100 then 100
  else 5

/-- The slug shape asserted by the claim: only lowercase alphanumerics and
hyphens, no two adjacent hyphens, and no leading or trailing hyphen. -/
def goodSlug (s : Str) : Prop :=
  (∀ c ∈ s, isSlugChar c = true ∨ c = '-') ∧
  List.Chain' (fun a b => ¬(a = '-' ∧ b = '-')) s ∧
  s.head? ≠ some '-' ∧ s.getLast? ≠ some '-'

instance (s : Str) : Decidable (goodSlug s) := by
  unfold goodSlug; infer_instance

/-- The present normalized values observed for category key `k`, in
encounter order (the values `buildCategoryAverages` collects for `k`). -/
def catVals (k : Str) (cats : List NormalizedCategoryRating) : List ℚ :=
  cats.filterMap (fun c => if c.key = k then c.normalizedRating else none)

/-! ## Concrete fixtures for the closed theorems -/

def epochIso : Str := "1970-01-01T00:00:00.000Z".toList

/-- A small concrete date oracle: knows one real date and the epoch. -/
def odC : DateOracle :=
  { parse := fun s =>
      if s = "2024-06-01".toList then some 1717200000000
      else if s = epochIso then some 0 else none
    toIso := fun t => if t = 0 then epochIso else []
    monthKey := fun _ => "1970-01".toList }

/-- The raw review of the spec's scenario: id 7453, rating 9 with no scale
hint, one `cleanliness` category rated 9. -/
def raw7453 : HostawayReview :=
  { id := 7453, listingId := 101
    listingName := "Shoreditch Loft".toList
    type := none, channel := none, status := none
    rating := some 9, ratingScale := none
    publicReview := none, privateReview := none
    reviewCategory := some [{ category := "cleanliness".toList, rating := some 9 }]
    submittedAt := none, guestName := none, managerResponse := none
    tags := none, publishOnFlex := none }

/-- Store snapshot holding the mutation endpoint's key
(`set("hostaway-7453", false)`). -/
def c1Store : Approvals := [("hostaway-7453".toList, false)]

/-- Raw review 7453 with an explicit `publishOnFlex: true` flag. -/
def c1Raw : HostawayReview := { raw7453 with publishOnFlex := some true }

/-- Raw review whose rating exceeds its explicit positive scale hint. -/
def c2Raw : HostawayReview :=
  { raw7453 with rating := some 10, ratingScale := some 5 }

/-- Raw review whose public comment contains the words `good` and `value`
adjacent in that order. -/
def c4Raw : HostawayReview :=
  { raw7453 with publicReview := some ("good value".toList) }

def c4Rev : NormalizedReview := normalizeReview odC [] c4Raw

/-- Raw review with a single category whose rating is null. -/
def c5Raw : HostawayReview :=
  { raw7453 with
    rating := none
    reviewCategory := some [{ category := "checkin".toList, rating := none }] }

def c5Rev : NormalizedReview := normalizeReview odC [] c5Raw

/-- Raw review with an unparseable submission timestamp. -/
def c6Raw : HostawayReview :=
  { raw7453 with submittedAt := some ("garbage".toList) }

/-- Normalized reviews with ratings 1 and 5 (of 5) for the sorting claims. -/
def c3RawLow : HostawayReview :=
  { raw7453 with id := 1, rating := some 1, ratingScale := some 5
                 reviewCategory := none }

def c3RawHigh : HostawayReview :=
  { raw7453 with id := 2, rating := some 5, ratingScale := some 5
                 reviewCategory := none }

def c3Low : NormalizedReview := normalizeReview odC [] c3RawLow

def c3High : NormalizedReview := normalizeReview odC [] c3RawHigh

/-- Two listings with equal non-null average ratings whose names are in
descending order of name at encounter time. -/
def c7RawBravo : HostawayReview :=
  { raw7453 with id := 11, listingId := 1, listingName := "Bravo".toList
                 rating := some 4, ratingScale := some 5, reviewCategory := none }

def c7RawAlpha : HostawayReview :=
  { raw7453 with id := 12, listingId := 2, listingName := "Alpha".toList
                 rating := some 4, ratingScale := some 5, reviewCategory := none }

def c7Bravo : NormalizedReview := normalizeReview odC [] c7RawBravo

def c7Alpha : NormalizedReview := normalizeReview odC [] c7RawAlpha

/-- Raw review whose listing name is non-empty but has no alphanumerics. -/
def c10Raw : HostawayReview :=
  { raw7453 with listingName := "!!!".toList }

/-! ## Claim theorems -/

/-- C1: the claim asserts that a store entry under the public identifier
`"hostaway-" + id` (the key written by the approval mutation endpoint, which
receives the normalized `review.id`) overrides the approval state.  On the
code it does not: `normalizeReview` reads the store under `String(id)`
(`"7453"`), so with the store mapping `"hostaway-7453" ↦ false` and
`publishOnFlex: true`, the normalized review is still approved. -/
theorem c1_overrideKeyMismatch :
    (normalizeReview odC c1Store c1Raw).id = "hostaway-7453".toList ∧
    lookupApproval c1Store ((normalizeReview odC c1Store c1Raw).id) =
      some false ∧
    (normalizeReview odC c1Store c1Raw).isApproved = true := by
  decide

/-- C3: the claim asserts `rating:desc` sorts non-increasingly (nulls last)
and `rating:asc` non-decreasingly (nulls first).  The comparator
`(aValue - bValue) * multiplier * -1` double-negates the direction, so the
code produces the opposite order: on normalized ratings `[1, 5]`,
`rating:desc` returns them ascending and `rating:asc` descending. -/
theorem c3_ratingSortInverted :
    (applySorting odC [c3Low, c3High] (some ("rating:desc".toList))).map
        (fun r => r.normalizedRating) = [some 1, some 5] ∧
    (applySorting odC [c3Low, c3High] (some ("rating:asc".toList))).map
        (fun r => r.normalizedRating) = [some 5, some 1] := by
  with_unfolding_all decide

/-- C2 counterexample: with rating 10 and explicit positive scale hint 5 the
normalized rating is 10, outside [0, 5] — the claim fails for arbitrary
rating values under a positive scale hint. -/
theorem c2_counterexample :
    (normalizeReview odC [] c2Raw).normalizedRating = some 10 ∧
    ¬ ((10 : ℚ) ≤ 5) := by
  constructor
  · with_unfolding_all decide
  · norm_num

/-- C4 counterexample: for the query `"value good"`, both whitespace-split
terms occur in the haystack (so the claim's per-term AND predicate holds),
but `matchesFilters` rejects the review because the full query is not a
contiguous substring. -/
theorem c4_counterexample :
    specSearchMatches c4Rev ("value good".toList) = true ∧
    matchesFilters odC c4Rev
      { emptyFilters with search := some ("value good".toList) } = false := by
  with_unfolding_all decide

/-- C5 counterexample: a category (`checkin`) whose only observed sub-rating
is null is *not* absent from the category-averages output; it is emitted
with null `average` and null `normalizedAverage`. -/
theorem c5_counterexample :
    buildCategoryAverages [c5Rev] =
      [{ category := "Checkin".toList, average := none, scale := 5
         normalizedAverage := none }] := by
  with_unfolding_all decide

/-- C6 counterexample: a review with an unparseable submission timestamp is
normalized to the epoch instant, so with only an `endDate` bound set (here
2024-06-01) the review *matches* the date-range filter, contradicting the
claimed unconditional non-match. -/
theorem c6_counterexample :
    parseDateM odC c6Raw.submittedAt = none ∧
    matchesFilters odC (normalizeReview odC [] c6Raw)
      { emptyFilters with endDate := some ("2024-06-01".toList) } = true := by
  with_unfolding_all decide

/-- C7 counterexample: two summaries with equal non-null average ratings (4
and 4) keep their encounter order `["Bravo", "Alpha"]` — the listing-name
ascending tie-break the claim asserts for equal non-null averages does not
happen (the comparator returns 0 in that branch). -/
theorem c7_counterexample :
    (buildListingSummaries odC [c7Bravo, c7Alpha]).map
        (fun s => s.averageRating) = [some 4, some 4] ∧
    (buildListingSummaries odC [c7Bravo, c7Alpha]).map
        (fun s => s.listingName) = ["Bravo".toList, "Alpha".toList] := by
  with_unfolding_all decide

/-- C9: the response's metadata filter vocabulary and its overall metrics
are computed from the full normalized corpus before filtering or sorting, so
they are identical across any two filter/sort specifications over the same
corpus, store snapshot, oracle and clock. -/
theorem c9_metaIndependentOfFilters (od : DateOracle) (store : Approvals)
    (now : Str) (corpus : List HostawayReview) (f₁ f₂ : ReviewFilters) :
    (buildHostawayResponse od store now corpus f₁).meta.filters =
      (buildHostawayResponse od store now corpus f₂).meta.filters ∧
    (buildHostawayResponse od store now corpus f₁).metrics.overall =
      (buildHostawayResponse od store now corpus f₂).metrics.overall :=
  ⟨rfl, rfl⟩

/-! ### Rounding and scale-detection bounds -/

theorem toFixed2_nonneg {x : ℚ} (h : 0 ≤ x) : 0 ≤ toFixed2 x := by
  unfold toFixed2
  have h1 : (0 : ℤ) ≤ ⌊x * 100 + 1 / 2⌋ := Int.le_floor.mpr (by push_cast; linarith)
  have h2 : (0 : ℚ) ≤ (⌊x * 100 + 1 / 2⌋ : ℚ) := by exact_mod_cast h1
  linarith

theorem toFixed2_le_five {x : ℚ} (h : x ≤ 5) : toFixed2 x ≤ 5 := by
  have h1 : (⌊x * 100 + 1 / 2⌋ : ℚ) ≤ x * 100 + 1 / 2 := Int.floor_le _
  have h4 : (⌊x * 100 + 1 / 2⌋ : ℤ) ≤ 500 := by
    by_contra hc
    push_neg at hc
    have h5 : ((501 : ℤ) : ℚ) ≤ (⌊x * 100 + 1 / 2⌋ : ℚ) := by exact_mod_cast hc
    push_cast at h5
    linarith
  unfold toFixed2
  have h6 : ((⌊x * 100 + 1 / 2⌋ : ℤ) : ℚ) ≤ 500 := by exact_mod_cast h4
  linarith

theorem detectScaleNoHint_pos (r : Option ℚ) : 0 < detectScaleNoHint r := by
  unfold detectScaleNoHint DEFAULT_RATING_SCALE
  cases r with
  | none => norm_num
  | some v => dsimp only; split_ifs <;> norm_num

theorem detectScale_pos (r s : Option ℚ) : 0 < detectScale r s := by
  unfold detectScale
  cases s with
  | none => exact detectScaleNoHint_pos r
  | some v =>
    dsimp only
    split_ifs with h
    · exact h
    · exact detectScaleNoHint_pos r

theorem le_detectScaleNoHint {r : ℚ} (h100 : r ≤ 100) :
    r ≤ detectScaleNoHint (some r) := by
  unfold detectScaleNoHint DEFAULT_RATING_SCALE
  dsimp only
  split_ifs <;> linarith

theorem normalizeValueToTarget_bounds {v s : ℚ} (h0 : 0 ≤ v) (hs : 0 < s)
    (hv : v ≤ s) :
    ∃ q, normalizeValueToTarget (some v) s = some q ∧ 0 ≤ q ∧ q ≤ 5 := by
  refine ⟨toFixed2 (v / s * NORMALIZED_TARGET_SCALE), ?_, ?_, ?_⟩
  · simp only [normalizeValueToTarget]
    rw [if_neg (not_le.mpr hs)]
  · apply toFixed2_nonneg
    unfold NORMALIZED_TARGET_SCALE
    positivity
  · apply toFixed2_le_five
    unfold NORMALIZED_TARGET_SCALE
    have hd : v / s ≤ 1 := (div_le_one hs).mpr hv
    nlinarith [div_nonneg h0 (le_of_lt hs)]

/-- The spec's classification chain agrees with the hint-free branch of
`detectScale`. -/
theorem detectScaleNoHint_eq_chain (r : ℚ) :
    detectScaleNoHint (some r) = specScaleChain r := rfl

theorem detectScale_none (r : Option ℚ) :
    detectScale r none = detectScaleNoHint r := rfl

theorem normalizeCategories_bounds (categories)
    (c : NormalizedCategoryRating) (hc : c ∈ normalizeCategories categories)
    (rc : ℚ) (hr : c.rating = some rc) (h0 : 0 ≤ rc) (h100 : rc ≤ 100) :
    ∃ q, c.normalizedRating = some q ∧ 0 ≤ q ∧ q ≤ 5 := by
  unfold normalizeCategories at hc
  cases categories with
  | none => simp at hc
  | some cs =>
    dsimp only at hc
    split at hc
    · simp at hc
    · obtain ⟨c0, _, rfl⟩ := List.mem_map.mp hc
      dsimp only at hr ⊢
      rw [hr] at *
      exact normalizeValueToTarget_bounds h0 (detectScaleNoHint_pos _)
        (le_detectScaleNoHint h100)

/-- C2 (amended): the normalized rating (and each normalized category
sub-rating) is null or lies within [0, 5] *provided* the raw value is
nonnegative and does not exceed its detected scale (for a category, its own
magnitude-detected scale, i.e. raw value in [0, 100]); raw values outside
that range — e.g. exceeding an explicit positive scale hint, negative, or
above 100 with no hint — can produce normalized values outside [0, 5]. -/
theorem c2_amended (od : DateOracle) (store : Approvals)
    (raw : HostawayReview) (r : ℚ) (h1 : raw.rating = some r) (h0 : 0 ≤ r)
    (hb : r ≤ detectScale raw.rating raw.ratingScale) :
    (∃ q, (normalizeReview od store raw).normalizedRating = some q ∧
       0 ≤ q ∧ q ≤ 5) ∧
    ∀ c ∈ (normalizeReview od store raw).categoryRatings, ∀ rc : ℚ,
      c.rating = some rc → 0 ≤ rc → rc ≤ 100 →
      ∃ q, c.normalizedRating = some q ∧ 0 ≤ q ∧ q ≤ 5 := by
  constructor
  · rw [show (normalizeReview od store raw).normalizedRating =
        normalizeValueToTarget raw.rating
          (detectScale raw.rating raw.ratingScale) from rfl]
    rw [h1] at hb ⊢
    exact normalizeValueToTarget_bounds h0 (detectScale_pos _ _) hb
  · intro c hc rc hcr h0c h100c
    exact normalizeCategories_bounds raw.reviewCategory c hc rc hcr h0c h100c

/-- Witness for C2 (amended) at the spec's scenario review (rating 9, no
hint: detected scale 10, so the bound hypotheses hold). -/
theorem c2_amended_witness :
    ∃ q, (normalizeReview odC [] raw7453).normalizedRating = some q ∧
      0 ≤ q ∧ q ≤ 5 :=
  (c2_amended odC [] raw7453 9 rfl (by norm_num)
    (by with_unfolding_all decide)).1

theorem normalizeCategories_scale (categories)
    (c : NormalizedCategoryRating) (hc : c ∈ normalizeCategories categories)
    (rc : ℚ) (hr : c.rating = some rc) :
    c.scale = specScaleChain rc ∧
    c.normalizedRating = some (toFixed2 (rc / specScaleChain rc * 5)) := by
  unfold normalizeCategories at hc
  cases categories with
  | none => simp at hc
  | some cs =>
    dsimp only at hc
    split at hc
    · simp at hc
    · obtain ⟨c0, _, rfl⟩ := List.mem_map.mp hc
      dsimp only at hr ⊢
      rw [hr] at *
      refine ⟨rfl, ?_⟩
      simp only [normalizeValueToTarget]
      rw [detectScale_none,
        if_neg (not_le.mpr (detectScaleNoHint_pos (some rc)))]
      rfl

/-- C8: with no explicit scale hint the detected scale (for the top-level
rating and for each category sub-rating) follows the magnitude chain
≤5 → 5, ≤10 → 10, ≤20 → 20, ≤100 → 100, else 5, and the normalized value is
`value * 5 / scale` rounded to two decimals; the concrete scenario
(rating 9 → scale 10 → 4.5) is the witness below. -/
theorem c8_scaleClassification (od : DateOracle) (store : Approvals)
    (raw : HostawayReview) (r : ℚ) (h1 : raw.rating = some r)
    (h2 : raw.ratingScale = none) :
    (normalizeReview od store raw).ratingScale = specScaleChain r ∧
    (normalizeReview od store raw).normalizedRating =
      some (toFixed2 (r / specScaleChain r * 5)) ∧
    ∀ c ∈ (normalizeReview od store raw).categoryRatings, ∀ rc : ℚ,
      c.rating = some rc →
      c.scale = specScaleChain rc ∧
      c.normalizedRating = some (toFixed2 (rc / specScaleChain rc * 5)) := by
  refine ⟨?_, ?_, ?_⟩
  · rw [show (normalizeReview od store raw).ratingScale =
        detectScale raw.rating raw.ratingScale from rfl, h1, h2]
    rfl
  · rw [show (normalizeReview od store raw).normalizedRating =
        normalizeValueToTarget raw.rating
          (detectScale raw.rating raw.ratingScale) from rfl, h1, h2]
    show normalizeValueToTarget (some r) (detectScaleNoHint (some r)) = _
    simp only [normalizeValueToTarget]
    rw [if_neg (not_le.mpr (detectScaleNoHint_pos (some r)))]
    rfl
  · intro c hc rc hcr
    exact normalizeCategories_scale raw.reviewCategory c hc rc hcr

/-- Witness for C8 at the spec's scenario review: rating 9, no hint →
detected scale 10, normalized rating 4.5, category normalized rating 4.5. -/
theorem c8_witness :
    (normalizeReview odC [] raw7453).ratingScale = 10 ∧
    (normalizeReview odC [] raw7453).normalizedRating = some (9 / 2) ∧
    ((normalizeReview odC [] raw7453).categoryRatings.map
      (fun c => c.normalizedRating)) = [some (9 / 2)] := by
  have h := c8_scaleClassification odC [] raw7453 9 rfl rfl
  refine ⟨?_, ?_, ?_⟩
  · rw [h.1]; with_unfolding_all decide
  · rw [h.2.1]; with_unfolding_all decide
  · with_unfolding_all decide

/-- C4 (amended): with the search string set (and no other predicate), a
review matches if and only if the *entire* query string is,
case-insensitively, a contiguous substring of the space-joined concatenation
of listing name, guest name, public comment, private comment, manager
response and tags — a phrase match, not an AND across whitespace-split
terms. -/
theorem c4_amended (od : DateOracle) (r : NormalizedReview) (q : Str)
    (hq : q ≠ []) :
    matchesFilters od r { emptyFilters with search := some q } =
      containsSub (lowerStr (searchHaystack r)) (lowerStr q) := by
  simp [matchesFilters, matchesFilters.matchesSearch, emptyFilters,
    parseDateM, hq]

/-- Witness for C4 (amended) at a concrete review and query. -/
theorem c4_amended_witness :
    matchesFilters odC c4Rev { emptyFilters with search := some ("good".toList) } =
      containsSub (lowerStr (searchHaystack c4Rev)) (lowerStr ("good".toList)) :=
  c4_amended odC c4Rev ("good".toList) (by decide)

/-- C6 (amended): normalization coerces a missing or unparseable submission
timestamp to the epoch instant, so under a date-range filter such a review
is excluded by any `startDate` bound after the epoch but *included* by an
`endDate`-only bound at or after the epoch (assuming the oracle parses its
own epoch ISO rendering back to 0). -/
theorem c6_amended (od : DateOracle) (store : Approvals)
    (raw : HostawayReview)
    (hraw : parseDateM od raw.submittedAt = none)
    (hrt : parseDateM od (some (od.toIso 0)) = some 0) :
    (∀ s ts, s ≠ [] → od.parse s = some ts → 0 < ts →
       matchesFilters od (normalizeReview od store raw)
         { emptyFilters with startDate := some s } = false) ∧
    (∀ e te, e ≠ [] → od.parse e = some te → 0 ≤ te →
       matchesFilters od (normalizeReview od store raw)
         { emptyFilters with endDate := some e } = true) := by
  have hsub : (normalizeReview od store raw).submittedAt = od.toIso 0 := by
    show od.toIso ((parseDateM od raw.submittedAt).getD 0) = od.toIso 0
    rw [hraw]
    rfl
  have hrt' : parseDateM od (some ((normalizeReview od store raw).submittedAt)) =
      some 0 := by rw [hsub]; exact hrt
  constructor
  · intro s ts hs hps hpos
    have hpd : parseDateM od (some s) = some ts := by
      simp [parseDateM, hs, hps]
    simp [matchesFilters, emptyFilters, hpd, hrt', hpos]
  · intro e te he hpe hte
    have hpd : parseDateM od (some e) = some te := by
      simp [parseDateM, he, hpe]
    have hn : ¬ (te < (0 : Int)) := not_lt.mpr hte
    have hpn : parseDateM od none = none := rfl
    simp [matchesFilters, matchesFilters.matchesSearch, emptyFilters, hpd,
      hrt', hn, hpn]

/-- Witness for C6 (amended): the unparseable-timestamp review is excluded
by a post-epoch `startDate` bound under the concrete oracle. -/
theorem c6_amended_witness :
    matchesFilters odC (normalizeReview odC [] c6Raw)
      { emptyFilters with startDate := some ("2024-06-01".toList) } = false :=
  (c6_amended odC [] c6Raw (by decide) (by decide)).1
    ("2024-06-01".toList) 1717200000000 (by decide) (by decide) (by norm_num)

/-! ### Tracked-map lemmas for the category aggregation -/

theorem lookupTracked_append (k : Str) (a b : Tracked) :
    lookupTracked k (a ++ b) =
      match lookupTracked k a with
      | some p => some p
      | none => lookupTracked k b := by
  induction a with
  | nil => simp [lookupTracked]
  | cons hd tl ih =>
    obtain ⟨k', p⟩ := hd
    by_cases h : k' = k <;> simp [lookupTracked, h, ih]

theorem lookupTracked_pushTracked (k k' : Str) (v : ℚ) (t : Tracked) :
    lookupTracked k (pushTracked k' v t) =
      if k' = k then (lookupTracked k t).map (fun p => (p.1, p.2 ++ [v]))
      else lookupTracked k t := by
  induction t with
  | nil => by_cases h : k' = k <;> simp [pushTracked, lookupTracked, h]
  | cons hd tl ih =>
    obtain ⟨k'', s, vs⟩ := hd
    by_cases h1 : k'' = k' <;> by_cases h2 : k'' = k <;>
      by_cases h3 : k' = k <;>
      simp_all [pushTracked, lookupTracked]

theorem lookupTracked_trackStep (k : Str) (acc : Tracked)
    (c : NormalizedCategoryRating) :
    lookupTracked k (trackStep acc c) =
      if c.key = k then
        match lookupTracked k acc, c.normalizedRating with
        | some p, some v => some (p.1, p.2 ++ [v])
        | some p, none => some p
        | none, some v => some (c.scale, [v])
        | none, none => some (c.scale, [])
      else lookupTracked k acc := by
  unfold trackStep
  by_cases hk : c.key = k
  · cases hacc : lookupTracked k acc with
    | some p =>
      have hisSome : (lookupTracked c.key acc).isSome = true := by
        rw [hk, hacc]; rfl
      cases hnr : c.normalizedRating with
      | none => simp [hisSome, hk, hacc, hnr]
      | some v =>
        simp [hisSome, hk, hacc, hnr, lookupTracked_pushTracked]
    | none =>
      have hisSome : (lookupTracked c.key acc).isSome = false := by
        rw [hk, hacc]; rfl
      cases hnr : c.normalizedRating with
      | none =>
        simp [hisSome, hk, hacc, hnr, lookupTracked_append, lookupTracked]
      | some v =>
        simp [hisSome, hk, hacc, hnr, lookupTracked_pushTracked,
          lookupTracked_append, lookupTracked]
  · cases hnr : c.normalizedRating with
    | none =>
      by_cases hs : (lookupTracked c.key acc).isSome <;>
        simp [hs, hk, hnr, lookupTracked_append, lookupTracked] <;>
        cases lookupTracked k acc <;> rfl
    | some v =>
      by_cases hs : (lookupTracked c.key acc).isSome <;>
        simp [hs, hk, hnr, lookupTracked_pushTracked,
          lookupTracked_append, lookupTracked] <;>
        cases lookupTracked k acc <;> rfl

theorem trackFoldKeep (k : Str) (cats : List NormalizedCategoryRating) :
    ∀ acc p, catVals k cats = [] → lookupTracked k acc = some p →
      lookupTracked k (cats.foldl trackStep acc) = some p := by
  induction cats with
  | nil => intro acc p _ h; simpa using h
  | cons c cs ih =>
    intro acc p hnull hl
    have h1 : (if c.key = k then c.normalizedRating else none) = none := by
      cases hfc : (if c.key = k then c.normalizedRating else none) with
      | none => rfl
      | some v =>
        unfold catVals at hnull
        rw [List.filterMap_cons, hfc] at hnull
        simp at hnull
    have h2 : catVals k cs = [] := by
      unfold catVals at hnull ⊢
      rw [List.filterMap_cons, h1] at hnull
      exact hnull
    simp only [List.foldl_cons]
    refine ih (trackStep acc c) p h2 ?_
    rw [lookupTracked_trackStep]
    by_cases hk : c.key = k
    · have hnr : c.normalizedRating = none := by simpa [hk] using h1
      simp [hk, hl, hnr]
    · simp [hk, hl]

theorem trackFoldCreate (k : Str) (cats : List NormalizedCategoryRating) :
    ∀ acc, catVals k cats = [] → lookupTracked k acc = none →
      k ∈ cats.map (fun c => c.key) →
      ∃ s, lookupTracked k (cats.foldl trackStep acc) = some (s, []) := by
  induction cats with
  | nil => intro acc _ _ h; simp at h
  | cons c cs ih =>
    intro acc hnull hacc hmem
    have h1 : (if c.key = k then c.normalizedRating else none) = none := by
      cases hfc : (if c.key = k then c.normalizedRating else none) with
      | none => rfl
      | some v =>
        unfold catVals at hnull
        rw [List.filterMap_cons, hfc] at hnull
        simp at hnull
    have h2 : catVals k cs = [] := by
      unfold catVals at hnull ⊢
      rw [List.filterMap_cons, h1] at hnull
      exact hnull
    simp only [List.foldl_cons]
    by_cases hk : c.key = k
    · have hnr : c.normalizedRating = none := by simpa [hk] using h1
      have hstep : lookupTracked k (trackStep acc c) = some (c.scale, []) := by
        rw [lookupTracked_trackStep]
        simp [hk, hacc, hnr]
      exact ⟨c.scale, trackFoldKeep k cs (trackStep acc c) (c.scale, []) h2 hstep⟩
    · have hmem' : k ∈ cs.map (fun c => c.key) := by
        rcases List.mem_map.mp hmem with ⟨c', hc', hkey⟩
        rcases List.mem_cons.mp hc' with rfl | hc''
        · exact absurd hkey hk
        · exact List.mem_map.mpr ⟨c', hc'', hkey⟩
      have hstep : lookupTracked k (trackStep acc c) = none := by
        rw [lookupTracked_trackStep]
        simp [hk, hacc]
      exact ih (trackStep acc c) h2 hstep hmem'

theorem lookupTracked_mem (k : Str) (t : Tracked) (p : ℚ × List ℚ)
    (h : lookupTracked k t = some p) : (k, p) ∈ t := by
  induction t with
  | nil => simp [lookupTracked] at h
  | cons hd tl ih =>
    obtain ⟨k', q⟩ := hd
    by_cases hk : k' = k
    · subst hk
      unfold lookupTracked at h
      rw [if_pos rfl] at h
      cases h
      exact List.mem_cons_self _ _
    · unfold lookupTracked at h
      rw [if_neg hk] at h
      exact List.mem_cons_of_mem _ (ih h)

/-- C5 (amended): a category key observed in the set all of whose observed
sub-rating values are null is *present* in the category-averages output,
with null normalized average and null original-scale average — it is not
excluded. -/
theorem c5_amended (reviews : List NormalizedReview) (k : Str)
    (hobs : k ∈ ((reviews.flatMap (fun r => r.categoryRatings)).map
      (fun c => c.key)))
    (hnull : catVals k (reviews.flatMap (fun r => r.categoryRatings)) = []) :
    ∃ e ∈ buildCategoryAverages reviews,
      e.category = humanizeCategory k ∧ e.average = none ∧
      e.normalizedAverage = none := by
  obtain ⟨s, hs⟩ :=
    trackFoldCreate k (reviews.flatMap (fun r => r.categoryRatings)) []
      hnull rfl hobs
  refine ⟨categoryEntry (k, s, []), ?_, rfl, ?_, ?_⟩
  · exact List.mem_map_of_mem categoryEntry
      (lookupTracked_mem k _ _ hs)
  · simp [categoryEntry, averageVals, average]
  · simp [categoryEntry, averageVals, average]

/-- Witness for C5 (amended) at the single-review set whose `checkin`
category carries a null rating. -/
theorem c5_amended_witness :
    ∃ e ∈ buildCategoryAverages [c5Rev],
      e.category = humanizeCategory ("checkin".toList) ∧ e.average = none ∧
      e.normalizedAverage = none :=
  c5_amended [c5Rev] ("checkin".toList) (by with_unfolding_all decide)
    (by with_unfolding_all decide)

/-! ### Stable-sort order lemmas -/

theorem mem_insertBy {lt : α → α → Bool} {a x : α} {l : List α} :
    x ∈ insertBy lt a l ↔ x = a ∨ x ∈ l := by
  induction l with
  | nil => simp [insertBy]
  | cons b t ih =>
    by_cases h : lt a b <;> simp [insertBy, h, ih] <;> tauto

theorem pairwise_insertBy {lt : α → α → Bool} {le : α → α → Prop}
    (hconn : ∀ x y, lt x y = false → le y x)
    (hlt : ∀ x y, lt x y = true → le x y)
    (htrans : ∀ x y z, le x y → le y z → le x z)
    (a : α) (l : List α) (hl : l.Pairwise le) :
    (insertBy lt a l).Pairwise le := by
  induction l with
  | nil => simp [insertBy]
  | cons b t ih =>
    rcases List.pairwise_cons.mp hl with ⟨hb, ht⟩
    by_cases h : lt a b
    · rw [insertBy, if_pos h]
      refine List.pairwise_cons.mpr ⟨?_, hl⟩
      intro x hx
      rcases List.mem_cons.mp hx with rfl | hx'
      · exact hlt a x h
      · exact htrans a b x (hlt a b h) (hb x hx')
    · rw [insertBy, if_neg h]
      refine List.pairwise_cons.mpr ⟨?_, ih ht⟩
      intro x hx
      rcases mem_insertBy.mp hx with rfl | hx'
      · exact hconn x b (Bool.eq_false_iff.mpr h)
      · exact hb x hx'

theorem pairwise_stableSortBy {lt : α → α → Bool} {le : α → α → Prop}
    (hconn : ∀ x y, lt x y = false → le y x)
    (hlt : ∀ x y, lt x y = true → le x y)
    (htrans : ∀ x y z, le x y → le y z → le x z)
    (l : List α) : (stableSortBy lt l).Pairwise le := by
  unfold stableSortBy
  suffices h : ∀ acc : List α, acc.Pairwise le →
      (l.foldl (fun acc a => insertBy lt a acc) acc).Pairwise le by
    exact h [] (by simp)
  induction l with
  | nil => intro acc h; simpa using h
  | cons a t ih =>
    intro acc h
    simp only [List.foldl_cons]
    exact ih _ (pairwise_insertBy hconn hlt htrans a acc h)

/-! ### Lexicographic comparison lemmas -/

theorem cmpStr_neg : ∀ a b : Str, cmpStr b a = -cmpStr a b
  | [], [] => by simp [cmpStr]
  | [], _ :: _ => by simp [cmpStr]
  | _ :: _, [] => by simp [cmpStr]
  | a :: as, b :: bs => by
    have ih := cmpStr_neg as bs
    simp only [cmpStr]
    rcases lt_trichotomy a b with h | h | h
    · simp [h, asymm h]
    · subst h
      simp [lt_irrefl, ih]
    · simp [h, asymm h]

theorem cmpStr_trans :
    ∀ a b c : Str, cmpStr a b ≤ 0 → cmpStr b c ≤ 0 → cmpStr a c ≤ 0
  | [], _, c => by
    intro _ _
    cases c <;> simp [cmpStr]
  | _ :: _, [], _ => by
    intro h _
    simp [cmpStr] at h
  | _ :: _, _ :: _, [] => by
    intro _ h
    simp [cmpStr] at h
  | a :: as, b :: bs, c :: cs => by
    intro h1 h2
    simp only [cmpStr] at h1 h2 ⊢
    rcases lt_trichotomy a b with hab | hab | hab
    · rcases lt_trichotomy b c with hbc | hbc | hbc
      · rw [if_pos (lt_trans hab hbc)]; norm_num
      · subst hbc; rw [if_pos hab]; norm_num
      · rw [if_neg (asymm hbc), if_pos hbc] at h2; norm_num at h2
    · subst hab
      rw [if_neg (lt_irrefl a), if_neg (lt_irrefl a)] at h1
      rcases lt_trichotomy a c with hac | hac | hac
      · rw [if_pos hac]; norm_num
      · subst hac
        rw [if_neg (lt_irrefl a), if_neg (lt_irrefl a)] at h2 ⊢
        exact cmpStr_trans as bs cs h1 h2
      · rw [if_neg (asymm hac), if_pos hac] at h2; norm_num at h2
    · rw [if_neg (asymm hab), if_pos hab] at h1; norm_num at h1

/-! ### Listing-summary comparator lemmas -/

theorem summaryCmp_antisymm (a b : ListingReviewSummary) :
    summaryCmp b a = -summaryCmp a b := by
  unfold summaryCmp
  cases ha : a.averageRating <;> cases hb : b.averageRating
  · rw [cmpStr_neg]; push_cast; ring
  · norm_num
  · norm_num
  · ring

theorem summaryCmp_trans (a b c : ListingReviewSummary)
    (h1 : summaryCmp a b ≤ 0) (h2 : summaryCmp b c ≤ 0) :
    summaryCmp a c ≤ 0 := by
  unfold summaryCmp at h1 h2 ⊢
  rcases ha : a.averageRating with _ | x <;>
    rcases hb : b.averageRating with _ | y <;>
    rcases hc : c.averageRating with _ | z <;>
    simp only [ha, hb, hc] at h1 h2 ⊢
  · have h1' : cmpStr a.listingName b.listingName ≤ 0 := by exact_mod_cast h1
    have h2' : cmpStr b.listingName c.listingName ≤ 0 := by exact_mod_cast h2
    exact_mod_cast cmpStr_trans _ _ _ h1' h2'
  · norm_num at h2
  · norm_num at h1
  · norm_num at h1
  · norm_num
  · norm_num at h2
  · norm_num
  · linarith

/-- C7 (amended): the listing summaries are ordered by normalized average
descending with null averages last, and the listing-name ascending tie-break
applies (only) when both averages are null; summaries with equal non-null
averages are not reordered relative to each other. -/
theorem c7_amended (od : DateOracle) (reviews : List NormalizedReview) :
    (buildListingSummaries od reviews).Pairwise
      (fun a b =>
        match a.averageRating, b.averageRating with
        | some x, some y => y ≤ x
        | some _, none => True
        | none, some _ => False
        | none, none => cmpStr a.listingName b.listingName ≤ 0) := by
  have hp : (buildListingSummaries od reviews).Pairwise
      (fun a b => summaryCmp a b ≤ 0) := by
    unfold buildListingSummaries
    refine pairwise_stableSortBy ?_ ?_ summaryCmp_trans _
    · intro x y h
      have hx : ¬ summaryCmp x y < 0 := by
        simpa using h
      rw [summaryCmp_antisymm]
      linarith [not_lt.mp hx]
    · intro x y h
      have hx : summaryCmp x y < 0 := by
        simpa using h
      linarith
  refine hp.imp ?_
  intro a b h
  unfold summaryCmp at h
  rcases ha : a.averageRating with _ | x <;>
    rcases hb : b.averageRating with _ | y <;>
    simp only [ha, hb] at h ⊢
  · exact_mod_cast h
  · norm_num at h
  · linarith

/-! ### Slug shape lemmas -/

theorem isSlugChar_ne_hyphen {c : Char} (h : isSlugChar c = true) :
    c ≠ '-' := by
  intro he
  subst he
  exact absurd h (by decide)

theorem collapseNonAlnum_chars :
    ∀ s : Str, ∀ c ∈ collapseNonAlnum s, isSlugChar c = true ∨ c = '-'
  | [] => by simp [collapseNonAlnum]
  | c0 :: rest => by
    intro c hc
    have ih := collapseNonAlnum_chars rest
    simp only [collapseNonAlnum] at hc
    by_cases h : isSlugChar c0
    · rw [if_pos h] at hc
      rcases List.mem_cons.mp hc with rfl | hm
      · exact Or.inl h
      · exact ih c hm
    · rw [if_neg h] at hc
      by_cases hh : (collapseNonAlnum rest).head? = some '-'
      · rw [if_pos hh] at hc
        exact ih c hc
      · rw [if_neg hh] at hc
        rcases List.mem_cons.mp hc with rfl | hm
        · exact Or.inr rfl
        · exact ih c hm

theorem collapseNonAlnum_chain :
    ∀ s : Str,
      List.Chain' (fun a b => ¬(a = '-' ∧ b = '-')) (collapseNonAlnum s)
  | [] => by simp [collapseNonAlnum]
  | c0 :: rest => by
    have ih := collapseNonAlnum_chain rest
    simp only [collapseNonAlnum]
    by_cases h : isSlugChar c0
    · rw [if_pos h]
      refine List.chain'_cons'.mpr ⟨?_, ih⟩
      intro b _
      exact fun hp => isSlugChar_ne_hyphen h hp.1
    · rw [if_neg h]
      by_cases hh : (collapseNonAlnum rest).head? = some '-'
      · rw [if_pos hh]
        exact ih
      · rw [if_neg hh]
        refine List.chain'_cons'.mpr ⟨?_, ih⟩
        intro b hb
        rintro ⟨-, rfl⟩
        exact hh hb

theorem dropLeadHyphen_subset :
    ∀ s : Str, ∀ c ∈ dropLeadHyphen s, c ∈ s := by
  intro s
  cases s with
  | nil => simp [dropLeadHyphen]
  | cons c0 t =>
    intro c hc
    by_cases h : c0 = '-'
    · rw [dropLeadHyphen, if_pos h] at hc
      exact List.mem_cons_of_mem _ hc
    · rw [dropLeadHyphen, if_neg h] at hc
      exact hc

theorem dropLeadHyphen_chain {R : Char → Char → Prop} :
    ∀ s : Str, List.Chain' R s → List.Chain' R (dropLeadHyphen s) := by
  intro s hch
  cases s with
  | nil => simpa [dropLeadHyphen] using hch
  | cons c0 t =>
    by_cases h : c0 = '-'
    · rw [dropLeadHyphen, if_pos h]
      exact (List.chain'_cons'.mp hch).2
    · rw [dropLeadHyphen, if_neg h]
      exact hch

theorem dropLeadHyphen_head :
    ∀ s : Str, List.Chain' (fun a b => ¬(a = '-' ∧ b = '-')) s →
      (dropLeadHyphen s).head? ≠ some '-' := by
  intro s hch
  cases s with
  | nil => simp [dropLeadHyphen]
  | cons c0 t =>
    by_cases h : c0 = '-'
    · rw [dropLeadHyphen, if_pos h]
      intro hh
      exact (List.chain'_cons'.mp hch).1 '-' hh ⟨h, rfl⟩
    · rw [dropLeadHyphen, if_neg h]
      simpa using h

theorem dropTrailHyphen_subset :
    ∀ s : Str, ∀ c ∈ dropTrailHyphen s, c ∈ s
  | [] => by simp [dropTrailHyphen]
  | [c0] => by
    by_cases h : c0 = '-' <;> simp [dropTrailHyphen, h]
  | c0 :: c1 :: rest => by
    intro c hc
    simp only [dropTrailHyphen] at hc
    rcases List.mem_cons.mp hc with rfl | hm
    · exact List.mem_cons_self _ _
    · exact List.mem_cons_of_mem _ (dropTrailHyphen_subset (c1 :: rest) c hm)

theorem dropTrailHyphen_headOr :
    ∀ s : Str, dropTrailHyphen s = [] ∨ (dropTrailHyphen s).head? = s.head?
  | [] => Or.inl rfl
  | [c0] => by
    by_cases h : c0 = '-' <;> simp [dropTrailHyphen, h]
  | c0 :: c1 :: rest => by
    right
    simp [dropTrailHyphen]

theorem dropTrailHyphen_nil :
    ∀ c : Char, ∀ rest : Str,
      dropTrailHyphen (c :: rest) = [] → rest = [] ∧ c = '-'
  | c, [] => by
    by_cases h : c = '-' <;> simp [dropTrailHyphen, h]
  | c, r :: rs => by simp [dropTrailHyphen]

theorem dropTrailHyphen_chain {R : Char → Char → Prop} :
    ∀ s : Str, List.Chain' R s → List.Chain' R (dropTrailHyphen s)
  | [] => by simp [dropTrailHyphen]
  | [c0] => by
    intro _
    by_cases h : c0 = '-' <;> simp [dropTrailHyphen, h]
  | c0 :: c1 :: rest => by
    intro hch
    obtain ⟨hr, ht⟩ := List.chain'_cons'.mp hch
    simp only [dropTrailHyphen]
    refine List.chain'_cons'.mpr
      ⟨?_, dropTrailHyphen_chain (c1 :: rest) ht⟩
    intro b hb
    rcases dropTrailHyphen_headOr (c1 :: rest) with he | he
    · rw [he] at hb
      simp at hb
    · rw [he] at hb
      simp only [List.head?_cons, Option.mem_def, Option.some.injEq] at hb
      subst hb
      exact hr c1 rfl

theorem dropTrailHyphen_last :
    ∀ s : Str, List.Chain' (fun a b => ¬(a = '-' ∧ b = '-')) s →
      (dropTrailHyphen s).getLast? ≠ some '-'
  | [] => by simp [dropTrailHyphen]
  | [c0] => by
    intro _
    by_cases h : c0 = '-' <;> simp [dropTrailHyphen, h]
  | c0 :: c1 :: rest => by
    intro hch
    obtain ⟨hr, ht⟩ := List.chain'_cons'.mp hch
    simp only [dropTrailHyphen]
    cases hd : dropTrailHyphen (c1 :: rest) with
    | nil =>
      obtain ⟨rfl, rfl⟩ := dropTrailHyphen_nil c1 rest hd
      have hc0 : ¬(c0 = '-' ∧ '-' = '-') := hr '-' rfl
      simp only [List.getLast?_singleton, ne_eq, Option.some.injEq]
      intro he
      exact hc0 ⟨he, rfl⟩
    | cons d0 ds =>
      rw [List.getLast?_cons_cons, ← hd]
      exact dropTrailHyphen_last (c1 :: rest) ht

theorem stripEdge_good (s0 : Str)
    (hall : ∀ c ∈ s0, isSlugChar c = true ∨ c = '-')
    (hch : List.Chain' (fun a b => ¬(a = '-' ∧ b = '-')) s0) :
    goodSlug (stripEdgeHyphens s0) := by
  unfold stripEdgeHyphens
  have hallu : ∀ c ∈ dropLeadHyphen s0, isSlugChar c = true ∨ c = '-' :=
    fun c hc => hall c (dropLeadHyphen_subset s0 c hc)
  have hchu := dropLeadHyphen_chain s0 hch
  have hheadu := dropLeadHyphen_head s0 hch
  refine ⟨?_, ?_, ?_, ?_⟩
  · intro c hc
    exact hallu c (dropTrailHyphen_subset _ c hc)
  · exact dropTrailHyphen_chain _ hchu
  · rcases dropTrailHyphen_headOr (dropLeadHyphen s0) with he | he
    · rw [he]
      simp
    · rw [he]
      exact hheadu
  · exact dropTrailHyphen_last _ hchu

theorem goodSlug_toSlug (v : Str) : goodSlug (toSlug v) := by
  unfold toSlug
  exact stripEdge_good _ (collapseNonAlnum_chars _) (collapseNonAlnum_chain _)

/-- C10: every normalized review's `listingSlug` consists only of lowercase
alphanumerics and single interior hyphens with no leading/trailing hyphen;
and for the listing name `"!!!"` (non-empty, no alphanumerics) the slug is
the empty string even though the listing name keeps its non-empty value. -/
theorem c10_slugShape :
    (∀ od store raw, goodSlug ((normalizeReview od store raw).listingSlug)) ∧
    (normalizeReview odC [] c10Raw).listingName = "!!!".toList ∧
    (normalizeReview odC [] c10Raw).listingSlug = [] := by
  refine ⟨?_, ?_, ?_⟩
  · intro od store raw
    exact goodSlug_toSlug _
  · decide
  · decide
